import Mathlib

/-!
Verification of the Twilio <-> ElevenLabs voice bridge.

Shallow embedding of the audio codec helpers, the outbound frame pacer,
the caller-turn (VAD) controller, the AI-side readiness state machine,
the auth checks and the AI audio-payload extractor, translated from the
JavaScript sources (the part_006 bridge and server.js).  Byte buffers are
modelled as `List Nat` (each entry one byte, 0..255), 16-bit PCM sample
arrays as `List Int`.  Base64 transport is a bijection between payload
strings and byte buffers, so payloads are modelled directly as the decoded
bytes.
-/

namespace Bridge

/-! ## Codec helpers (server.js, audio helpers section) -/

/-- One step of `muLawToPcm16` (server.js): `x = ~u` read back through the
8-bit masks, sign from bit 7 of the complement, 3-bit exponent, 4-bit
mantissa, magnitude `((mantissa<<1)+1) << (exponent+2)`, result
`sign * (magnitude - 132)`. -/
def muLawToPcm16Sample (u : Nat) : Int :=
  let x : Nat := 255 - u % 256
  let sign : Int := if x &&& 0x80 ≠ 0 then -1 else 1
  let exponent : Nat := (x >>> 4) &&& 0x07
  let mantissa : Nat := x &&& 0x0F
  let magnitude : Nat := ((mantissa <<< 1) + 1) <<< (exponent + 2)
  sign * ((magnitude : Int) - 132)

/-- Source `muLawToPcm16` (server.js): decode each μ-law byte to a linear sample. -/
def muLawToPcm16 (mu : List Nat) : List Int :=
  mu.map muLawToPcm16Sample

/-- The exponent search loop of `pcm16ToMuLaw` (server.js): start at 7 with
mask `0x4000`, shift the mask down while the tested bit is clear. -/
def muLawExponent (s : Nat) : Nat :=
  if s &&& 0x4000 ≠ 0 then 7
  else if s &&& 0x2000 ≠ 0 then 6
  else if s &&& 0x1000 ≠ 0 then 5
  else if s &&& 0x800 ≠ 0 then 4
  else if s &&& 0x400 ≠ 0 then 3
  else if s &&& 0x200 ≠ 0 then 2
  else if s &&& 0x100 ≠ 0 then 1
  else 0

/-- One step of `pcm16ToMuLaw` (server.js): saturate at 32635, add the bias
132, find the exponent, take 4 mantissa bits, complement the packed byte.
`~v & 0xFF` is `255 - v` for `v ≤ 255`. -/
def pcm16ToMuLawSample (sample : Int) : Nat :=
  let sign : Nat := if sample < 0 then 0x80 else 0
  let s1 : Int := if sample < 0 then -sample else sample
  let s2 : Int := if s1 > 32635 then 32635 else s1
  let s3 : Nat := (s2 + 132).toNat
  let exponent : Nat := muLawExponent s3
  let mantissa : Nat := (s3 >>> (exponent + 3)) &&& 0x0F
  255 - (sign ||| (exponent <<< 4) ||| mantissa)

/-- Source `pcm16ToMuLaw` (server.js): encode each linear sample to a μ-law byte. -/
def pcm16ToMuLaw (pcm : List Int) : List Nat :=
  pcm.map pcm16ToMuLawSample

/-- Source `upsamplePcm16Mono8kTo16k` (server.js): duplicate every sample
(zero-order hold). -/
def upsamplePcm16Mono8kTo16k (pcm8k : List Int) : List Int :=
  pcm8k.flatMap (fun s => [s, s])

/-- Source `downsamplePcm16Mono16kTo8k` (server.js): keep every second sample
(`out[j] = in[2*j]`, output length `⌊n/2⌋`). -/
def downsamplePcm16Mono16kTo8k : List Int → List Int
  | a :: _ :: rest => a :: downsamplePcm16Mono16kTo8k rest
  | _ => []

/-! ## Frame slicing (the `for (o = 0; o < len; o += 160)` loops)

Both bridges cut an outbound μ-law byte stream into consecutive slices of
at most 160 bytes: `merged.subarray(o, Math.min(o + 160, merged.length))`.
The recursion is driven by a fuel argument (the list length bounds the
number of slices) so the function reduces by `rfl`/`decide`. -/

def sliceFramesAux : Nat → List Nat → List (List Nat)
  | 0, _ => []
  | _, [] => []
  | fuel + 1, l => l.take 160 :: sliceFramesAux fuel (l.drop 160)

/-- The slices sent by the `o += 160` loop, in order. -/
def sliceFrames (l : List Nat) : List (List Nat) :=
  sliceFramesAux l.length l

theorem sliceFramesAux_length_le (fuel : Nat) :
    ∀ l : List Nat, ∀ f ∈ sliceFramesAux fuel l, f.length ≤ 160 := by
  induction fuel with
  | zero => intro l f hf; simp [sliceFramesAux] at hf
  | succ n ih =>
    intro l f hf
    match l with
    | [] => simp [sliceFramesAux] at hf
    | a :: t =>
      simp only [sliceFramesAux, List.mem_cons] at hf
      rcases hf with rfl | hf
      · simp [List.length_take_le 160 (a :: t)]
      · exact ih _ f hf

theorem sliceFramesAux_length_pos (fuel : Nat) :
    ∀ l : List Nat, ∀ f ∈ sliceFramesAux fuel l, 0 < f.length := by
  induction fuel with
  | zero => intro l f hf; simp [sliceFramesAux] at hf
  | succ n ih =>
    intro l f hf
    match l with
    | [] => simp [sliceFramesAux] at hf
    | a :: t =>
      simp only [sliceFramesAux, List.mem_cons] at hf
      rcases hf with rfl | hf
      · simp [List.length_take]
      · exact ih _ f hf

theorem sliceFramesAux_length_dvd (fuel : Nat) :
    ∀ l : List Nat, l.length ≤ fuel → 160 ∣ l.length →
      ∀ f ∈ sliceFramesAux fuel l, f.length = 160 := by
  induction fuel with
  | zero => intro l _ _ f hf; simp [sliceFramesAux] at hf
  | succ n ih =>
    intro l hlen hdvd f hf
    match l with
    | [] => simp [sliceFramesAux] at hf
    | a :: t =>
      simp only [sliceFramesAux, List.mem_cons] at hf
      have h160 : 160 ≤ (a :: t).length := by
        rcases hdvd with ⟨k, hk⟩
        match k with
        | 0 => simp at hk
        | k + 1 => omega
      rcases hf with rfl | hf
      · rw [List.length_take]
        exact Nat.min_eq_left h160
      · have hdrop : ((a :: t).drop 160).length = (a :: t).length - 160 :=
          List.length_drop 160 (a :: t)
        refine ih _ ?_ ?_ f hf
        · omega
        · rw [hdrop]
          rcases hdvd with ⟨k, hk⟩
          exact ⟨k - 1, by omega⟩

theorem sliceFramesAux_join (fuel : Nat) :
    ∀ l : List Nat, l.length ≤ fuel → (sliceFramesAux fuel l).flatten = l := by
  induction fuel with
  | zero =>
    intro l hlen
    have : l = [] := List.length_eq_zero.mp (Nat.le_zero.mp hlen)
    simp [this, sliceFramesAux]
  | succ n ih =>
    intro l hlen
    match l with
    | [] => simp [sliceFramesAux]
    | a :: t =>
      simp only [sliceFramesAux, List.flatten_cons]
      rw [ih ((a :: t).drop 160) (by simp [List.length_drop] at *; omega)]
      exact List.take_append_drop 160 (a :: t)

/-- Every slice is nonempty, at most 160 bytes, and exactly 160 bytes when
the stream length is a multiple of 160. -/
theorem sliceFrames_spec (l : List Nat) (f : List Nat) (hf : f ∈ sliceFrames l) :
    0 < f.length ∧ f.length ≤ 160 ∧ (160 ∣ l.length → f.length = 160) :=
  ⟨sliceFramesAux_length_pos _ l f hf, sliceFramesAux_length_le _ l f hf,
    fun hd => sliceFramesAux_length_dvd _ l le_rfl hd f hf⟩

/-- Concatenating the slices gives back the original byte stream. -/
theorem sliceFrames_flatten (l : List Nat) : (sliceFrames l).flatten = l :=
  sliceFramesAux_join _ l le_rfl

/-! ## Format tests and the agent-audio transcode path (part_006)

`elOutFormat` is matched with `/ulaw_?8000/i` and `/16k|16000/i`; these are
substring tests after lowercasing. -/

def strTakes : List Char → List Char → Bool
  | _, [] => true
  | [], _ :: _ => false
  | a :: as, b :: bs => a == b && strTakes as bs

def strHasSub (hay needle : List Char) : Bool :=
  strTakes hay needle ||
    match hay with
    | [] => false
    | _ :: t => strHasSub t needle

/-- Test of the regex `/ulaw_?8000/i` on the format string. -/
def isUlaw8000Fmt : Option String → Bool
  | none => false
  | some s =>
    let l := s.data.map Char.toLower
    strHasSub l "ulaw_8000".data || strHasSub l "ulaw8000".data

/-- Test of the regex `/16k|16000/i` on the format string. -/
def is16kFmt : Option String → Bool
  | none => false
  | some s =>
    let l := s.data.map Char.toLower
    strHasSub l "16k".data || strHasSub l "16000".data

/-- Reinterpret a 32-bit-masked value as a signed 16-bit sample
(`DataView.getInt16`). -/
def toInt16 (n : Nat) : Int :=
  if n % 65536 < 32768 then ((n % 65536 : Nat) : Int)
  else ((n % 65536 : Nat) : Int) - 65536

/-- Read a byte buffer as little-endian int16 samples
(`new Int16Array(buffer)` / `DataView.getInt16(i, true)`); a trailing odd
byte is dropped (`Math.floor(byteLength / 2)`). -/
def bytesToPcm16 : List Nat → List Int
  | lo :: hi :: rest => toInt16 (lo % 256 + 256 * (hi % 256)) :: bytesToPcm16 rest
  | _ => []

/-- Write int16 samples back to little-endian bytes
(`Buffer.from(output16.buffer)`). -/
def pcm16ToBytes (pcm : List Int) : List Nat :=
  pcm.flatMap fun v =>
    let u := (v % 65536).toNat
    [u % 256, u / 256]

/-- Source `ulawExp` (part_006): nested threshold search for the exponent. -/
def ulawExp (sample : Nat) : Nat :=
  if sample ≥ 256 then
    if sample ≥ 512 then
      if sample ≥ 1024 then
        if sample ≥ 2048 then 7 else 6
      else 5
    else if sample ≥ 128 then 4 else 3
  else if sample ≥ 64 then 2
  else if sample ≥ 32 then 1
  else 0

/-- Source `linear2ulaw` (part_006): clamp at `MULAW_MAX = 0x1FFF`, bias `0x84`,
exponent from `ulawExp`, complemented packed byte.  The sign test
`(sample >> 8) & 0x80` is bit 15, i.e. the sign bit for int16 inputs. -/
def linear2ulaw (sample : Int) : Nat :=
  let sign : Nat := if sample < 0 then 0x80 else 0
  let s1 : Int := if sample < 0 then -sample else sample
  let s2 : Int := if s1 > 0x1FFF then 0x1FFF else s1
  let s3 : Nat := (s2 + 0x84).toNat
  let exponent : Nat := ulawExp s3
  let mantissa : Nat := (s3 >>> (exponent + 3)) &&& 0x0F
  255 - (sign ||| (exponent <<< 4) ||| mantissa)

/-- Source `pcm16ToMuLaw` (part_006): a byte buffer read as int16 samples through a
`DataView`, each encoded with `linear2ulaw`. -/
def pcm16BufToMuLaw (pcmBuffer : List Nat) : List Nat :=
  (bytesToPcm16 pcmBuffer).map linear2ulaw

/-- Source `downsamplePcm16Mono16kTo8k` applied to a byte buffer (part_006 handler):
view as int16, decimate, write back as bytes. -/
def downsampleBuf (pcm16kBuf : List Nat) : List Nat :=
  pcm16ToBytes (downsamplePcm16Mono16kTo8k (bytesToPcm16 pcm16kBuf))

/-- The μ-law byte stream the part_006 agent-audio handler slices into
frames: passed through unchanged for a `ulaw_8000` output format, otherwise
(optionally downsampled from 16 kHz and) μ-law encoded. -/
def transcodeAgent (fmt : Option String) (outBuf : List Nat) : List Nat :=
  if isUlaw8000Fmt fmt then outBuf
  else
    let b := if is16kFmt fmt then downsampleBuf outBuf else outBuf
    pcm16BufToMuLaw b

/-! ## Per-call bridge state (the closure variables of
`attachBridgeHandlers` in part_006)

Timers are modelled as pending flags: a `setTimeout` arms the flag, a
`clearTimeout` clears it, and a timer event fires only while its flag is
armed.  `LOOPBACK_ONLY` is false (the production configuration). -/

structure Bst where
  authed : Bool
  twilioStreamSid : Option String
  seq : Nat
  chunk : Nat
  tsMs : Nat
  elOpen : Bool
  elReady : Bool
  conversationStarted : Bool
  elInFormat : Option String
  elOutFormat : Option String
  elBuffer : List (List Nat)
  elBufferedFrames : Nat
  totalFramesSent : Nat
  totalAudioReceived : Nat
  speaking : Bool
  firstUserInput : Bool
  elHasSpoken : Bool
  userHasSpoken : Bool
  lastAgentAudioTime : Nat
  silencePending : Bool
  capPending : Bool
  mdTimerPending : Bool
  resendPending : Bool
  nudge250Pending : Bool
  convStartNudgePending : Bool
  nudge1Pending : Bool
  nudge2Pending : Bool
  nudge3Pending : Bool
  deriving Repr, DecidableEq

/-- Records written to either socket.  Payloads carry the decoded bytes of
the base64 strings in the JSON records. -/
inductive OutMsg where
  | elUserAudioChunk (payload : List Nat)
  | elUserAudioStart
  | elUserAudioEnd
  | elUserMessage (text : String)
  | elConversationStart
  | twMedia (seqNum : Nat) (chunkNum : Nat) (timestampMs : Nat) (payload : List Nat)
  | twMark (name : String)
  | twClear
  deriving Repr, DecidableEq

/-- Default of `EL_BUFFER_MS`. -/
def elBufferMs : Nat := 200

/-- Value of `Math.max(1, Math.round(EL_BUFFER_MS / 20))`. -/
def framesPerPacket : Nat := Nat.max 1 (elBufferMs / 20)

/-- Source `resetUtterance` (part_006): stop speaking, cancel the silence and
hard-cap timers. -/
def resetUtterance (s : Bst) : Bst :=
  { s with speaking := false, silencePending := false, capPending := false }

/-- Source `flushElBuffer` (part_006): nothing to do on an empty buffer; deferred
(buffer kept) while the EL socket is not open; otherwise the merged μ-law
bytes are sent in 160-byte `user_audio_chunk` slices and the buffer is
cleared.  The 100 ms delayed `conversation_start` nudge is modelled by the
`convStartNudgePending` flag. -/
def flushElBuffer (s : Bst) : Bst × List OutMsg :=
  if s.elBufferedFrames = 0 then (s, [])
  else if !s.elOpen then (s, [])
  else
    let merged := s.elBuffer.flatten
    let msgs := (sliceFrames merged).map OutMsg.elUserAudioChunk
    let nudge := s.firstUserInput && s.conversationStarted && decide (5 < s.elBufferedFrames)
    ({ s with
        totalFramesSent := s.totalFramesSent + s.elBufferedFrames,
        convStartNudgePending := nudge || s.convStartNudgePending,
        firstUserInput := if nudge then false else s.firstUserInput,
        elBuffer := [],
        elBufferedFrames := 0 },
      msgs)

/-- The counter advance of one outbound frame: `++seq`, `++chunk`,
`tsMs += 20`. -/
def advCounters (s : Bst) : Bst :=
  { s with seq := s.seq + 1, chunk := s.chunk + 1, tsMs := s.tsMs + 20 }

/-- Source `sendAudioToTwilio` (part_006): skipped while the stream id is unknown;
otherwise pre-increments `seq` and `chunk`, stamps the current `tsMs`,
emits the media record plus its mark, then advances `tsMs` by 20. -/
def sendAudioToTwilio (s : Bst) (payload : List Nat) : Bst × List OutMsg :=
  match s.twilioStreamSid with
  | none => (s, [])
  | some _ =>
    (advCounters s,
      [OutMsg.twMedia (s.seq + 1) (s.chunk + 1) s.tsMs payload,
        OutMsg.twMark ("maggie-chunk-" ++ toString (s.chunk + 1))])

/-- Send a list of frames with `sendAudioToTwilio`, threading the state. -/
def sendFrames (s : Bst) : List (List Nat) → Bst × List OutMsg
  | [] => (s, [])
  | f :: fs =>
    let r1 := sendAudioToTwilio s f
    let r2 := sendFrames r1.1 fs
    (r2.1, r1.2 ++ r2.2)

/-- The state updates of the agent-audio branch of the part_006 `elWs`
message handler: first agent audio cancels the nudges, the
last-agent-audio time is updated, and any open caller turn is reset. -/
def agentAudioState (s : Bst) (now : Nat) : Bst :=
  let s1 :=
    if !s.elHasSpoken then
      { s with elHasSpoken := true,
               nudge1Pending := false, nudge2Pending := false, nudge3Pending := false }
    else s
  resetUtterance { s1 with lastAgentAudioTime := now }

/-- The agent-audio branch of the part_006 `elWs` message handler: apply
the state updates, then slice the (possibly transcoded) μ-law stream into
frames for Twilio. -/
def onAgentAudio (s : Bst) (audioBytes : List Nat) (now : Nat) : Bst × List OutMsg :=
  let s2 := agentAudioState s now
  sendFrames s2 (sliceFrames (transcodeAgent s2.elOutFormat audioBytes))

/-- A whole sequence of agent audio deliveries, at the given arrival
times. -/
def runAgentAudio (s : Bst) : List (List Nat × Nat) → Bst × List OutMsg
  | [] => (s, [])
  | (b, t) :: rest =>
    let r1 := onAgentAudio s b t
    let r2 := runAgentAudio r1.1 rest
    (r2.1, r1.2 ++ r2.2)

/-- The outbound media records in a message list, with their sequencing
fields. -/
def mediaRecs (ms : List OutMsg) : List (Nat × Nat × Nat × List Nat) :=
  ms.filterMap fun m =>
    match m with
    | OutMsg.twMedia q c t p => some (q, c, t, p)
    | _ => none

/-- The payloads of the outbound media records in a message list. -/
def mediaPayloads (ms : List OutMsg) : List (List Nat) :=
  (mediaRecs ms).map fun r => r.2.2.2

/-! ## Caller media handling and the VAD turn controller (part_006) -/

/-- The VAD turn-entry guard of the part_006 media handler:
`!speaking && (sinceAgent > 500 || !elHasSpoken || !elOpen)` with
`sinceAgent = now - (lastAgentAudioTime || 0)` (natural subtraction mirrors
the JS comparison: a non-positive difference is not `> 500`). -/
def entryCond (s : Bst) (now : Nat) : Bool :=
  !s.speaking &&
    (decide (500 < now - s.lastAgentAudioTime) || !s.elHasSpoken || !s.elOpen)

/-- The turn-entry section of the media handler: on entry set
`speaking`/`userHasSpoken`, send `user_audio_start` while the EL socket is
open, and (re-)arm the hard-cap timer. -/
def vadEntry (s : Bst) (now : Nat) : Bst × List OutMsg :=
  let entry := entryCond s now
  let s2 :=
    if entry then
      { s with speaking := true, userHasSpoken := true, capPending := true }
    else s
  (s2, if entry && s2.elOpen then [OutMsg.elUserAudioStart] else [])

/-- The buffering section of the media handler: append the frame bytes,
bump the frame count, and flush immediately once a full packet is buffered
while the EL socket is open. -/
def bufferFrame (s : Bst) (audioBytes : List Nat) : Bst × List OutMsg :=
  let s3 := { s with
    elBuffer := s.elBuffer ++ [audioBytes],
    elBufferedFrames := s.elBufferedFrames + 1 }
  if framesPerPacket ≤ s3.elBufferedFrames && s3.elOpen then flushElBuffer s3
  else (s3, [])

/-- The tail of the media handler: while speaking, re-arm the silence
timer. -/
def armSilence (s : Bst) : Bst :=
  if s.speaking then { s with silencePending := true } else s

/-- The inbound-media path of the part_006 Twilio message handler: a
missing (or empty, hence falsy base64) payload is dropped, an unauthorized
call drops the frame before any state change, and otherwise the VAD entry
guard, the buffering with immediate flush, and the silence re-arm run in
source order. -/
def processMediaInbound (s : Bst) (payload : Option (List Nat)) (now : Nat) :
    Bst × List OutMsg :=
  match payload with
  | none => (s, [])
  | some audioBytes =>
    if !s.authed then (s, [])
    else
      let s1 := { s with totalAudioReceived := s.totalAudioReceived + 1 }
      let r1 := vadEntry s1 now
      let r2 := bufferFrame r1.1 audioBytes
      (armSilence r2.1, r1.2 ++ r2.2)

/-- The media branch of the part_006 Twilio message handler.  Frames with a
`track` other than `inbound` are dropped; the rest go to
`processMediaInbound`. -/
def processMedia (s : Bst) (track : Option String) (payload : Option (List Nat))
    (now : Nat) : Bst × List OutMsg :=
  match track with
  | some t =>
    if t ≠ "inbound" then (s, [])
    else processMediaInbound s payload now
  | none => processMediaInbound s payload now

/-- Source `endUserTurn` (part_006): flush the buffer, then — while the EL socket
is open — send `user_audio_end` immediately, schedule the 150 ms
`user_audio_end` re-send and the 250 ms processing nudge, and reset the
utterance state. -/
def endUserTurn (s : Bst) : Bst × List OutMsg :=
  let r1 := flushElBuffer s
  if r1.1.elOpen then
    (resetUtterance { r1.1 with resendPending := true, nudge250Pending := true },
      r1.2 ++ [OutMsg.elUserAudioEnd])
  else
    (resetUtterance r1.1, r1.2)

/-- Timer events scoped to one caller turn. -/
inductive VadEv where
  | silenceFire
  | capFire
  | resendFire
  | nudge250Fire
  deriving Repr, DecidableEq

/-- Result of running the turn controller: final state, records sent, and
how many times `endUserTurn` ran. -/
structure VadRun where
  state : Bst
  msgs : List OutMsg
  exits : Nat
  deriving Repr, DecidableEq

/-- One timer callback.  A timer only fires while its pending flag is armed
(a cleared timeout never runs).  The silence and hard-cap callbacks run
`endUserTurn`; the 150 ms callback re-sends `user_audio_end` while the EL
socket is open; the 250 ms callback sends the processing nudge. -/
def vadStep (s : Bst) : VadEv → Bst × List OutMsg × Nat
  | VadEv.silenceFire =>
    if s.silencePending then
      let r := endUserTurn { s with silencePending := false }
      (r.1, r.2, 1)
    else (s, [], 0)
  | VadEv.capFire =>
    if s.capPending then
      let r := endUserTurn { s with capPending := false }
      (r.1, r.2, 1)
    else (s, [], 0)
  | VadEv.resendFire =>
    if s.resendPending then
      ({ s with resendPending := false },
        if s.elOpen then [OutMsg.elUserAudioEnd] else [], 0)
    else (s, [], 0)
  | VadEv.nudge250Fire =>
    if s.nudge250Pending then
      ({ s with nudge250Pending := false },
        if s.elOpen then
          [OutMsg.elUserMessage "(User finished speaking - please respond)"]
        else [], 0)
    else (s, [], 0)

/-- Run a sequence of turn-scoped timer events. -/
def runVad (s : Bst) : List VadEv → VadRun
  | [] => ⟨s, [], 0⟩
  | ev :: evs =>
    let r1 := vadStep s ev
    let r2 := runVad r1.1 evs
    ⟨r2.state, r1.2.1 ++ r2.msgs, r1.2.2 + r2.exits⟩

/-- Number of `user_audio_end` records in a message list. -/
def countAudioEnd (ms : List OutMsg) : Nat :=
  ms.countP fun m => m = OutMsg.elUserAudioEnd

/-! ## EL readiness: metadata and the optimistic fallback (part_006) -/

/-- Default of `EL_READY_FALLBACK_MS`. -/
def elReadyFallbackMs : Nat := 1000

/-- The delay of the metadata fallback timer:
`Math.max(200, EL_READY_FALLBACK_MS)`. -/
def mdFallbackDelay (cfg : Nat) : Nat := Nat.max 200 cfg

/-- The metadata fallback timer callback (part_006 `mdTimer`): if the
session is not yet ready, force it ready optimistically, send
`conversation_start`, and flush any buffered caller audio. -/
def elMdTimerFire (s : Bst) : Bst × List OutMsg :=
  if !s.mdTimerPending then (s, [])
  else
    let s1 := { s with mdTimerPending := false }
    if !s1.elReady then
      let s2 := { s1 with elReady := true }
      if 0 < s2.elBufferedFrames then
        let r := flushElBuffer s2
        (r.1, OutMsg.elConversationStart :: r.2)
      else (s2, [OutMsg.elConversationStart])
    else (s1, [])

/-- The `conversation_initiation_metadata` branch of the part_006 `elWs`
message handler: cancel the fallback timer, record the negotiated formats,
become ready, and flush any buffered caller audio. -/
def elMetadata (s : Bst) (userFmt agentFmt : Option String) : Bst × List OutMsg :=
  let s1 := { s with
    mdTimerPending := false,
    elInFormat := userFmt,
    elOutFormat := agentFmt,
    elReady := true,
    conversationStarted := true }
  if 0 < s1.elBufferedFrames then flushElBuffer s1 else (s1, [])

/-! ## Auth checks -/

/-- JS truthiness of an optional token string. -/
def tokTruthy : Option String → Bool
  | none => false
  | some t => t ≠ ""

/-- Initialization `let authed = !BRIDGE_AUTH_TOKEN` (part_006): the authorized flag starts
false exactly when a bridge auth token is configured. -/
def authedInit (cfg : Option String) : Bool := !tokTruthy cfg

/-- Outcome of a telephony `start` event for the auth claims. -/
inductive StartOutcome where
  | closed (code : Nat) (reason : String)
  | proceeded (authed : Bool) (elConnectAttempted : Bool)
  deriving Repr, DecidableEq

/-- Whether an outcome opened (attempted) the AI-side socket. -/
def StartOutcome.elAttempted : StartOutcome → Bool
  | StartOutcome.closed _ _ => false
  | StartOutcome.proceeded _ b => b

/-- The auth portion of the part_006 `start` handler: with a configured
token, a truthy matching `customParameters.token` authorizes the call and
anything else closes the telephony socket with 1008 before the EL
connection is made.  `loopback`, `hasKey` and `hasAgent` are the remaining
guards between the auth check and `connectToElevenLabs`. -/
def part006Start (cfg : Option String) (cpToken : Option String)
    (loopback hasKey hasAgent : Bool) : StartOutcome :=
  let proceed := fun (authed : Bool) =>
    if loopback then StartOutcome.proceeded authed false
    else if !hasKey then StartOutcome.proceeded authed false
    else if !hasAgent then StartOutcome.proceeded authed false
    else StartOutcome.proceeded authed true
  if tokTruthy cfg then
    if tokTruthy cpToken && cpToken == cfg then proceed true
    else StartOutcome.closed 1008 "bad-token"
  else proceed (authedInit cfg)

/-- Source `checkAuth` (server.js): auth not enforced without a configured token;
otherwise a truthy matching `customParameters` token or a nonempty matching
query token authorizes. -/
def checkAuth (cfg : String) (customToken : Option String) (queryToken : String) :
    Bool :=
  if cfg = "" then true
  else (tokTruthy customToken && customToken == some cfg) ||
    (queryToken ≠ "" && queryToken == cfg)

/-- The auth portion of the server.js `start` handler: on failed auth the
socket is closed with 1008 and the handler returns before
`ensureElAndMaybeInject`; on success the EL connection is ensured. -/
def serverStart (cfg : String) (cpToken : Option String) (queryToken : String) :
    StartOutcome :=
  if checkAuth cfg cpToken queryToken then StartOutcome.proceeded true true
  else StartOutcome.closed 1008 "bad-token"

/-! ## The AI audio-payload extractor `pickElAudioB64` (server.js / part_006)

Parsed JSON records are modelled by `JVal`.  Property access on a
non-object yields nothing (for the property names probed here this matches
JS, where e.g. `"x".audio` is `undefined`); `Object.values` of an object or
array gives its values in order and of anything else gives nothing
relevant to the scans (single characters for strings, nothing for the
other primitives). -/

inductive JVal where
  | str (s : String)
  | obj (fields : List (String × JVal))
  | arr (elems : List JVal)
  | other
  deriving Repr

/-- JS property access `msg?.k`. -/
def getField : JVal → String → Option JVal
  | JVal.obj fs, k => (fs.find? fun p => p.1 == k).map fun p => p.2
  | _, _ => none

/-- The value of a property when it is a string (the JS typeof test). -/
def strField (m : JVal) (k : String) : Option String :=
  match getField m k with
  | some (JVal.str s) => some s
  | _ => none

/-- A two-level string property `msg?.k1?.k2`. -/
def strField2 (m : JVal) (k1 k2 : String) : Option String :=
  match getField m k1 with
  | some v => strField v k2
  | none => none

/-- The candidate audio fields of `pickElAudioB64`, probed in order. -/
def audioCands (m : JVal) : List (Option String) :=
  [strField m "audio", strField m "audio_base64", strField m "audio_base_64",
    strField2 m "audio_event" "audio", strField2 m "audio_event" "audio_base64",
    strField2 m "audio_event" "audio_base_64", strField2 m "tts_event" "audio_base_64",
    strField2 m "response" "audio", strField2 m "chunk" "audio"]

/-- The loop over the candidates: return the first one that is a string
longer than 32 characters. -/
def firstLongCand : List (Option String) → Option String
  | [] => none
  | some s :: rest => if 32 < s.length then some s else firstLongCand rest
  | none :: rest => firstLongCand rest

/-- The character class of the regex `/^[A-Za-z0-9+\x2f=]+$/`. -/
def isB64Char (c : Char) : Bool :=
  c.isAlphanum || c == '+' || c == '/' || c == '='

/-- The regex test: nonempty and all characters in the class. -/
def isB64Str (s : String) : Bool :=
  decide (0 < s.length) && s.data.all isB64Char

/-- The `Object.values` iteration as used by the last-resort scans. -/
def jvalues : JVal → List JVal
  | JVal.obj fs => fs.map fun p => p.2
  | JVal.arr xs => xs
  | JVal.str s => s.data.map fun c => JVal.str (String.singleton c)
  | JVal.other => []

/-- Whether a JS value is a non-null object (the JS typeof test). -/
def isObjLike : JVal → Bool
  | JVal.obj _ => true
  | JVal.arr _ => true
  | _ => false

/-- The inner scan over `Object.values(v)`: the first string longer than
128 characters passing the base64 test. -/
def scanInner : List JVal → Option String
  | [] => none
  | JVal.str s :: rest =>
    if 128 < s.length && isB64Str s then some s else scanInner rest
  | _ :: rest => scanInner rest

/-- The outer last-resort scan over `Object.values(msg)`: a long base64
string directly, or one found one level deep inside an object value. -/
def scanVals : List JVal → Option String
  | [] => none
  | v :: rest =>
    match v with
    | JVal.str s =>
      if 128 < s.length && isB64Str s then some s else scanVals rest
    | JVal.obj fs =>
      match scanInner (fs.map fun p => p.2) with
      | some s => some s
      | none => scanVals rest
    | JVal.arr xs =>
      match scanInner xs with
      | some s => some s
      | none => scanVals rest
    | JVal.other => scanVals rest

/-- Source `pickElAudioB64` (server.js lines 444-468 and part_006 lines 374-390):
probe the known audio fields for a string longer than 32 characters, then
fall back to scanning one level deep for base64-looking strings longer
than 128 characters. -/
def pickElAudioB64 (m : JVal) : Option String :=
  match firstLongCand (audioCands m) with
  | some s => some s
  | none => scanVals (jvalues m)

/-! ## Example call state used by concrete runs

A state as it stands right after a successful `start` event and EL
connect, with the default flags. -/

def exState : Bst :=
  { authed := true
    twilioStreamSid := some "MZ0000"
    seq := 0
    chunk := 0
    tsMs := 0
    elOpen := true
    elReady := false
    conversationStarted := false
    elInFormat := none
    elOutFormat := some "ulaw_8000"
    elBuffer := []
    elBufferedFrames := 0
    totalFramesSent := 0
    totalAudioReceived := 0
    speaking := false
    firstUserInput := true
    elHasSpoken := false
    userHasSpoken := false
    lastAgentAudioTime := 0
    silencePending := false
    capPending := false
    mdTimerPending := true
    resendPending := false
    nudge250Pending := false
    convStartNudgePending := false
    nudge1Pending := true
    nudge2Pending := true
    nudge3Pending := true }

/-! ## Helper lemmas about `flushElBuffer` -/

theorem flushElBuffer_speaking (s : Bst) :
    (flushElBuffer s).1.speaking = s.speaking := by
  unfold flushElBuffer
  split
  · rfl
  · split
    · rfl
    · rfl

theorem flushElBuffer_elOpen (s : Bst) :
    (flushElBuffer s).1.elOpen = s.elOpen := by
  unfold flushElBuffer
  split
  · rfl
  · split
    · rfl
    · rfl

theorem flushElBuffer_timers (s : Bst) :
    (flushElBuffer s).1.silencePending = s.silencePending ∧
      (flushElBuffer s).1.capPending = s.capPending ∧
      (flushElBuffer s).1.resendPending = s.resendPending ∧
      (flushElBuffer s).1.nudge250Pending = s.nudge250Pending := by
  unfold flushElBuffer
  split
  · exact ⟨rfl, rfl, rfl, rfl⟩
  · split
    · exact ⟨rfl, rfl, rfl, rfl⟩
    · exact ⟨rfl, rfl, rfl, rfl⟩

/-- The payloads of the `user_audio_chunk` records in a message list. -/
def elChunkPayloads (ms : List OutMsg) : List (List Nat) :=
  ms.filterMap fun m =>
    match m with
    | OutMsg.elUserAudioChunk p => some p
    | _ => none

theorem elChunkPayloads_map_chunk (ps : List (List Nat)) :
    elChunkPayloads (ps.map OutMsg.elUserAudioChunk) = ps := by
  induction ps with
  | nil => rfl
  | cons p rest ih => simp [elChunkPayloads, List.filterMap_cons] at ih ⊢; exact ih

/-- While the EL socket is open, flushing empties the buffer and sends
exactly the buffered bytes, in order, as `user_audio_chunk` slices. -/
theorem flushElBuffer_flushes (s : Bst) (hopen : s.elOpen = true)
    (hlen : s.elBufferedFrames = s.elBuffer.length) :
    (flushElBuffer s).1.elBuffer = [] ∧ (flushElBuffer s).1.elBufferedFrames = 0 ∧
      (elChunkPayloads (flushElBuffer s).2).flatten = s.elBuffer.flatten := by
  unfold flushElBuffer
  split
  · rename_i h0
    have : s.elBuffer = [] := List.length_eq_zero.mp (by omega)
    simp [this, elChunkPayloads, h0]
  · rw [if_neg (by simp [hopen])]
    refine ⟨rfl, rfl, ?_⟩
    simp only [elChunkPayloads_map_chunk, sliceFrames_flatten]

theorem countAudioEnd_append (a b : List OutMsg) :
    countAudioEnd (a ++ b) = countAudioEnd a + countAudioEnd b :=
  List.countP_append _ _ _

theorem countAudioEnd_chunks (ps : List (List Nat)) :
    countAudioEnd (ps.map OutMsg.elUserAudioChunk) = 0 := by
  induction ps with
  | nil => rfl
  | cons p rest ih => simp [countAudioEnd, List.countP_cons] at ih ⊢

theorem countAudioEnd_flush (s : Bst) : countAudioEnd (flushElBuffer s).2 = 0 := by
  unfold flushElBuffer
  split
  · rfl
  · split
    · rfl
    · exact countAudioEnd_chunks _

/-! ## C4: the μ-law round trip -/

/-- C4: the claimed law `muLawEncode(muLawDecode(b)) == b` fails on the
code.  Evaluating the server.js codec at the failing input `b = 0xFF`:
`muLawToPcm16` decodes `0xFF` to `-128` (the standard G.711 table decodes
`0xFF` to `0`), and `pcm16ToMuLaw` re-encodes `-128` as `0x6F = 111`, so
the round trip returns `111`, not `255`. -/
theorem muLaw_roundTrip_fails_at_255 :
    muLawToPcm16 [255] = [-128] ∧ pcm16ToMuLaw [-128] = [111] ∧
      pcm16ToMuLaw (muLawToPcm16 [255]) ≠ [255] := by decide

/-! ## C8: upsample then downsample is the identity -/

theorem downsample_upsample_id (x : List Int) :
    downsamplePcm16Mono16kTo8k (upsamplePcm16Mono8kTo16k x) = x := by
  induction x with
  | nil => rfl
  | cons a t ih =>
    simp only [upsamplePcm16Mono8kTo16k, List.flatMap_cons] at ih ⊢
    show a :: downsamplePcm16Mono16kTo8k (t.flatMap fun s => [s, s]) = a :: t
    rw [ih]

/-- C8: for every even-length int16 sample array `x`,
`downsample16kTo8k(upsample8kTo16k(x)) == x`: duplicating every sample and
then dropping every second sample returns the original array. -/
theorem downsample_upsample_roundTrip (x : List Int) (h : x.length % 2 = 0) :
    downsamplePcm16Mono16kTo8k (upsamplePcm16Mono8kTo16k x) = x :=
  downsample_upsample_id x

theorem downsample_upsample_roundTrip_witness :
    ([(1 : Int), -2, 3, -4].length % 2 = 0) ∧
      downsamplePcm16Mono16kTo8k (upsamplePcm16Mono8kTo16k [(1 : Int), -2, 3, -4]) =
        [(1 : Int), -2, 3, -4] :=
  ⟨by decide, downsample_upsample_roundTrip [(1 : Int), -2, 3, -4] (by decide)⟩

/-! ## C5: start-event auth -/

/-- C5 counterexample: in the server.js variant, with a configured token
"tok", a `start` event whose `customParameters.token` is the mismatched
"bad" is still authorized when the upgrade query carried the matching
token, so the telephony socket is not closed with 1008 and the AI-side
connect is attempted — contradicting the claim as stated. -/
theorem serverStart_queryToken_overrides_cp_mismatch :
    serverStart "tok" (some "bad") "tok" = StartOutcome.proceeded true true ∧
      (some "bad" : Option String) ≠ some "tok" ∧
      (StartOutcome.proceeded true true).elAttempted = true := by decide

/-- C5 (amended): if a bridge auth token is configured and the `start`
event has a `customParameters` token not matching it, then the telephony
socket is closed with policy-violation code 1008 and no AI-side socket is
opened — always in the part_006 bridge, and in the server.js variant
provided no matching query-string token was supplied at upgrade. -/
theorem start_badToken_closes_1008 (t : String) (cp : Option String) (q : String)
    (loopback hasKey hasAgent : Bool)
    (ht : t ≠ "") (hcp : cp ≠ some t) (hq : q ≠ t) :
    part006Start (some t) cp loopback hasKey hasAgent =
        StartOutcome.closed 1008 "bad-token" ∧
      (part006Start (some t) cp loopback hasKey hasAgent).elAttempted = false ∧
      serverStart t cp q = StartOutcome.closed 1008 "bad-token" ∧
      (serverStart t cp q).elAttempted = false := by
  have hcpv : (tokTruthy cp && cp == some t) = false := by
    cases cp with
    | none => rfl
    | some c =>
      have : c ≠ t := fun h => hcp (by rw [h])
      simp [tokTruthy, this]
  have h1 : part006Start (some t) cp loopback hasKey hasAgent =
      StartOutcome.closed 1008 "bad-token" := by
    simp only [part006Start]
    rw [show tokTruthy (some t) = true by simp [tokTruthy, ht], hcpv]
    simp
  have h2 : serverStart t cp q = StartOutcome.closed 1008 "bad-token" := by
    have hqb : (q == t) = false := by simp [hq]
    simp only [serverStart, checkAuth, if_neg ht, hcpv, hqb]
    simp
  exact ⟨h1, by rw [h1]; rfl, h2, by rw [h2]; rfl⟩

theorem start_badToken_closes_1008_witness :
    part006Start (some "tok") (some "bad") false true true =
        StartOutcome.closed 1008 "bad-token" ∧
      (part006Start (some "tok") (some "bad") false true true).elAttempted = false ∧
      serverStart "tok" (some "bad") "nope" = StartOutcome.closed 1008 "bad-token" ∧
      (serverStart "tok" (some "bad") "nope").elAttempted = false :=
  start_badToken_closes_1008 "tok" (some "bad") "nope" false true true
    (by decide) (by decide) (by decide)

/-! ## C10 and C7: media-frame handling -/

theorem processMedia_track (s : Bst) (track : Option String)
    (payload : Option (List Nat)) (now : Nat)
    (htrack : track = none ∨ track = some "inbound") :
    processMedia s track payload now = processMediaInbound s payload now := by
  rcases htrack with rfl | rfl
  · rfl
  · simp [processMedia]

/-- C10: when a bridge auth token is configured the authorized flag starts
out false, and every inbound media frame that arrives while the flag is
false is dropped whole: the state (in particular the upstream buffer) is
unchanged and nothing is sent to either socket. -/
theorem unauthorized_media_dropped (cfg : Option String) (s : Bst)
    (track : Option String) (payload : Option (List Nat)) (now : Nat)
    (hcfg : tokTruthy cfg = true) (hauthed : s.authed = false) :
    authedInit cfg = false ∧ processMedia s track payload now = (s, []) := by
  refine ⟨by simp [authedInit, hcfg], ?_⟩
  have hinb : processMediaInbound s payload now = (s, []) := by
    cases payload with
    | none => rfl
    | some bs => simp [processMediaInbound, hauthed]
  cases track with
  | none => exact hinb
  | some t =>
    simp only [processMedia]
    split
    · rfl
    · exact hinb

theorem unauthorized_media_dropped_witness :
    authedInit (some "tok") = false ∧
      processMedia { exState with authed := false } none
          (some (List.replicate 160 0)) 1000 =
        ({ exState with authed := false }, []) :=
  unauthorized_media_dropped (some "tok") { exState with authed := false }
    none (some (List.replicate 160 0)) 1000 (by decide) (by decide)

theorem vadEntry_speaking (s : Bst) (now : Nat) :
    (vadEntry s now).1.speaking = (s.speaking || entryCond s now) := by
  unfold vadEntry
  by_cases he : entryCond s now = true
  · simp [he]
  · simp [Bool.eq_false_iff.mpr he]

theorem bufferFrame_speaking (s : Bst) (b : List Nat) :
    (bufferFrame s b).1.speaking = s.speaking := by
  simp only [bufferFrame]
  split
  · exact flushElBuffer_speaking _
  · rfl

theorem armSilence_speaking (s : Bst) : (armSilence s).speaking = s.speaking := by
  unfold armSilence
  split
  · rfl
  · rfl

theorem processMediaInbound_speaking (s : Bst) (bs : List Nat) (now : Nat)
    (hauth : s.authed = true) :
    (processMediaInbound s (some bs) now).1.speaking =
      (s.speaking || entryCond s now) := by
  simp only [processMediaInbound, hauth, Bool.not_true, Bool.false_eq_true,
    if_false]
  rw [armSilence_speaking, bufferFrame_speaking, vadEntry_speaking]
  rfl

/-- Modelled from the spec (turn entry condition, section 4.3): the state
is idle AND (time since last agent output exceeds 500 ms OR the agent has
never spoken OR the AI socket is not open). -/
def specTurnEntry (idle : Bool) (msSinceAgent : Nat)
    (agentHasSpoken aiOpen : Bool) : Prop :=
  idle = true ∧ (500 < msSinceAgent ∨ agentHasSpoken = false ∨ aiOpen = false)

/-- C7: for an inbound caller media frame on an authorized call, the media
handler enters a new caller turn (idle before, speaking after) exactly when
the turn state is idle and more than 500 ms have passed since the last
agent output, or the agent has never produced audio, or the AI socket is
not open. -/
theorem media_turn_entry_iff (s : Bst) (track : Option String) (bs : List Nat)
    (now : Nat) (htrack : track = none ∨ track = some "inbound")
    (hauth : s.authed = true) :
    ((processMedia s track (some bs) now).1.speaking = true ∧ s.speaking = false) ↔
      specTurnEntry (!s.speaking) (now - s.lastAgentAudioTime) s.elHasSpoken
        s.elOpen := by
  rw [processMedia_track s track (some bs) now htrack,
    processMediaInbound_speaking s bs now hauth]
  cases hsp : s.speaking
  · simp [specTurnEntry, entryCond, hsp, or_assoc]
  · simp [specTurnEntry, entryCond, hsp, or_assoc]

theorem media_turn_entry_iff_witness :
    (((processMedia exState none (some (List.replicate 160 0)) 1000).1.speaking = true ∧
        exState.speaking = false) ↔
      specTurnEntry (!exState.speaking) (1000 - exState.lastAgentAudioTime)
        exState.elHasSpoken exState.elOpen) ∧
      specTurnEntry (!exState.speaking) (1000 - exState.lastAgentAudioTime)
        exState.elHasSpoken exState.elOpen :=
  ⟨media_turn_entry_iff exState none (List.replicate 160 0) 1000
      (Or.inl rfl) (by decide),
    by constructor
       · decide
       · left; decide⟩

/-! ## C6: metadata fallback and readiness -/

theorem flushElBuffer_misc (s : Bst) :
    (flushElBuffer s).1.mdTimerPending = s.mdTimerPending ∧
      (flushElBuffer s).1.elReady = s.elReady ∧
      (flushElBuffer s).1.elInFormat = s.elInFormat ∧
      (flushElBuffer s).1.elOutFormat = s.elOutFormat := by
  unfold flushElBuffer
  split
  · exact ⟨rfl, rfl, rfl, rfl⟩
  · split
    · exact ⟨rfl, rfl, rfl, rfl⟩
    · exact ⟨rfl, rfl, rfl, rfl⟩

theorem elChunkPayloads_convStart (ms : List OutMsg) :
    elChunkPayloads (OutMsg.elConversationStart :: ms) = elChunkPayloads ms := by
  simp [elChunkPayloads, List.filterMap_cons]

/-- The guard `if (elBufferedFrames > 0) flushElBuffer(...)` is redundant:
flushing an empty buffer is already a no-op. -/
theorem flush_if_pos (s : Bst) :
    (if 0 < s.elBufferedFrames then flushElBuffer s else (s, [])) =
      flushElBuffer s := by
  by_cases h : 0 < s.elBufferedFrames
  · rw [if_pos h]
  · rw [if_neg h]
    unfold flushElBuffer
    rw [if_pos (by omega)]

/-- The state update of the fallback firing. -/
def mdReadyUpd (s : Bst) : Bst := { s with mdTimerPending := false, elReady := true }

/-- The state update of the metadata handler. -/
def mdMetaUpd (s : Bst) (userFmt agentFmt : Option String) : Bst :=
  { s with mdTimerPending := false, elInFormat := userFmt, elOutFormat := agentFmt,
           elReady := true, conversationStarted := true }

/-- Shape of the armed, not-yet-ready fallback firing: become ready, send
`conversation_start`, and flush. -/
theorem elMdTimerFire_fires (s : Bst) (hpend : s.mdTimerPending = true)
    (hnotready : s.elReady = false) :
    elMdTimerFire s =
      ((flushElBuffer (mdReadyUpd s)).1,
        OutMsg.elConversationStart :: (flushElBuffer (mdReadyUpd s)).2) := by
  unfold elMdTimerFire
  rw [hpend]
  simp only [Bool.not_true, Bool.false_eq_true, if_false]
  rw [if_pos (by simp [hnotready])]
  by_cases h : 0 < s.elBufferedFrames
  · rw [if_pos h]
    rfl
  · rw [if_neg h]
    have hflush : flushElBuffer (mdReadyUpd s) = (mdReadyUpd s, []) := by
      unfold flushElBuffer
      rw [if_pos (show (mdReadyUpd s).elBufferedFrames = 0 by
        show s.elBufferedFrames = 0
        omega)]
    rw [hflush]
    rfl

/-- The metadata handler is the state update followed by a flush. -/
theorem elMetadata_eq (s : Bst) (userFmt agentFmt : Option String) :
    elMetadata s userFmt agentFmt = flushElBuffer (mdMetaUpd s userFmt agentFmt) := by
  simp only [elMetadata]
  exact flush_if_pos (mdMetaUpd s userFmt agentFmt)

/-- C6: while the fallback timer is armed and metadata has not arrived, the
timer firing forces the session ready optimistically and flushes all
buffered caller audio; a metadata record instead cancels the fallback
timer, records the negotiated formats, makes the session ready, and also
flushes the buffer.  The default fallback delay
`Math.max(200, EL_READY_FALLBACK_MS)` is 1000 ms. -/
theorem metadata_fallback_and_ready (s : Bst) (userFmt agentFmt : Option String)
    (hpend : s.mdTimerPending = true) (hnotready : s.elReady = false)
    (hopen : s.elOpen = true) (hlen : s.elBufferedFrames = s.elBuffer.length) :
    ((elMdTimerFire s).1.elReady = true ∧
      (elMdTimerFire s).1.mdTimerPending = false ∧
      (elMdTimerFire s).1.elBuffer = [] ∧
      (elMdTimerFire s).1.elBufferedFrames = 0 ∧
      (elChunkPayloads (elMdTimerFire s).2).flatten = s.elBuffer.flatten) ∧
    ((elMetadata s userFmt agentFmt).1.mdTimerPending = false ∧
      (elMetadata s userFmt agentFmt).1.elReady = true ∧
      (elMetadata s userFmt agentFmt).1.elInFormat = userFmt ∧
      (elMetadata s userFmt agentFmt).1.elOutFormat = agentFmt ∧
      (elMetadata s userFmt agentFmt).1.elBuffer = [] ∧
      (elChunkPayloads (elMetadata s userFmt agentFmt).2).flatten =
        s.elBuffer.flatten) ∧
    mdFallbackDelay elReadyFallbackMs = 1000 := by
  refine ⟨?_, ?_, by decide⟩
  · rw [elMdTimerFire_fires s hpend hnotready]
    exact ⟨(flushElBuffer_misc (mdReadyUpd s)).2.1,
      (flushElBuffer_misc (mdReadyUpd s)).1,
      (flushElBuffer_flushes (mdReadyUpd s) hopen hlen).1,
      (flushElBuffer_flushes (mdReadyUpd s) hopen hlen).2.1,
      by rw [elChunkPayloads_convStart]
         exact (flushElBuffer_flushes (mdReadyUpd s) hopen hlen).2.2⟩
  · rw [elMetadata_eq]
    exact ⟨(flushElBuffer_misc (mdMetaUpd s userFmt agentFmt)).1,
      (flushElBuffer_misc (mdMetaUpd s userFmt agentFmt)).2.1,
      (flushElBuffer_misc (mdMetaUpd s userFmt agentFmt)).2.2.1,
      (flushElBuffer_misc (mdMetaUpd s userFmt agentFmt)).2.2.2,
      (flushElBuffer_flushes (mdMetaUpd s userFmt agentFmt) hopen hlen).1,
      (flushElBuffer_flushes (mdMetaUpd s userFmt agentFmt) hopen hlen).2.2⟩

def mdExSt : Bst :=
  { exState with elBuffer := [List.replicate 160 0], elBufferedFrames := 1 }

theorem metadata_fallback_and_ready_witness :
    ((elMdTimerFire mdExSt).1.elReady = true ∧
      (elMdTimerFire mdExSt).1.mdTimerPending = false ∧
      (elMdTimerFire mdExSt).1.elBuffer = [] ∧
      (elMdTimerFire mdExSt).1.elBufferedFrames = 0 ∧
      (elChunkPayloads (elMdTimerFire mdExSt).2).flatten = mdExSt.elBuffer.flatten) ∧
    ((elMetadata mdExSt (some "ulaw_8000") (some "ulaw_8000")).1.mdTimerPending = false ∧
      (elMetadata mdExSt (some "ulaw_8000") (some "ulaw_8000")).1.elReady = true ∧
      (elMetadata mdExSt (some "ulaw_8000") (some "ulaw_8000")).1.elInFormat =
        some "ulaw_8000" ∧
      (elMetadata mdExSt (some "ulaw_8000") (some "ulaw_8000")).1.elOutFormat =
        some "ulaw_8000" ∧
      (elMetadata mdExSt (some "ulaw_8000") (some "ulaw_8000")).1.elBuffer = [] ∧
      (elChunkPayloads (elMetadata mdExSt (some "ulaw_8000") (some "ulaw_8000")).2).flatten =
        mdExSt.elBuffer.flatten) ∧
    mdFallbackDelay elReadyFallbackMs = 1000 :=
  metadata_fallback_and_ready mdExSt (some "ulaw_8000") (some "ulaw_8000")
    rfl rfl rfl (by decide)

/-! ## C3: turn exit and the `user_audio_end` records -/

def turnExSt : Bst :=
  { exState with speaking := true, silencePending := true, capPending := true }

/-- C3 counterexample: with a turn in progress (silence and hard-cap timers
both armed, EL socket open), the hard-cap firing produces exactly one turn
exit — the pending silence timer is cancelled and later fires as a no-op —
but the exit sends `user_audio_end` twice: once immediately and once via
the 150 ms re-send, contradicting the claimed at-most-one (idempotent)
`user_audio_end` per turn. -/
theorem turn_exit_sends_two_audio_ends :
    (runVad turnExSt [VadEv.capFire, VadEv.silenceFire, VadEv.resendFire]).exits = 1 ∧
      countAudioEnd
        (runVad turnExSt [VadEv.capFire, VadEv.silenceFire, VadEv.resendFire]).msgs =
        2 := by decide

theorem endUserTurn_state (s : Bst) (hopen : s.elOpen = true) :
    (endUserTurn s).1.speaking = false ∧ (endUserTurn s).1.silencePending = false ∧
      (endUserTurn s).1.capPending = false ∧ (endUserTurn s).1.resendPending = true ∧
      (endUserTurn s).1.elOpen = true ∧
      countAudioEnd (endUserTurn s).2 = 1 := by
  unfold endUserTurn
  rw [if_pos (by rw [flushElBuffer_elOpen]; exact hopen)]
  refine ⟨rfl, rfl, rfl, rfl, ?_, ?_⟩
  · show (flushElBuffer s).1.elOpen = true
    rw [flushElBuffer_elOpen]; exact hopen
  · rw [countAudioEnd_append, countAudioEnd_flush]
    rfl

theorem runVad_cons (s : Bst) (ev : VadEv) (evs : List VadEv) :
    (runVad s (ev :: evs)).exits =
        (vadStep s ev).2.2 + (runVad (vadStep s ev).1 evs).exits ∧
      (runVad s (ev :: evs)).msgs =
        (vadStep s ev).2.1 ++ (runVad (vadStep s ev).1 evs).msgs := ⟨rfl, rfl⟩

/-- Expected number of re-sent `user_audio_end` records after an exit. -/
def resendCount (pending : Bool) (evs : List VadEv) : Nat :=
  if pending && evs.contains VadEv.resendFire then 1 else 0

theorem resendCount_false (evs : List VadEv) : resendCount false evs = 0 := rfl

theorem resendCount_skip (p : Bool) (e : VadEv) (evs : List VadEv)
    (h : e ≠ VadEv.resendFire) :
    resendCount p (e :: evs) = resendCount p evs := by
  cases e with
  | silenceFire => rfl
  | capFire => rfl
  | resendFire => exact absurd rfl h
  | nudge250Fire => rfl

theorem resendCount_hit (evs : List VadEv) :
    resendCount true (VadEv.resendFire :: evs) = 1 := rfl

theorem resendCount_true (evs : List VadEv) :
    resendCount true evs = if evs.contains VadEv.resendFire then 1 else 0 := by
  simp [resendCount]

/-- After a turn exit (both turn timers cleared, EL socket open), the
remaining turn-scoped timer events produce no further exit, and exactly one
more `user_audio_end` exactly when the 150 ms re-send is pending and
fires. -/
theorem runVad_after_exit (evs : List VadEv) :
    ∀ s : Bst, s.silencePending = false → s.capPending = false → s.elOpen = true →
      (runVad s evs).exits = 0 ∧
        countAudioEnd (runVad s evs).msgs = resendCount s.resendPending evs := by
  induction evs with
  | nil =>
    intro s h1 h2 h3
    refine ⟨rfl, ?_⟩
    show countAudioEnd [] = resendCount s.resendPending []
    cases s.resendPending
    · rfl
    · rfl
  | cons ev rest ih =>
    intro s h1 h2 h3
    obtain ⟨hx, hm⟩ := runVad_cons s ev rest
    cases ev with
    | silenceFire =>
      have hstep : vadStep s VadEv.silenceFire = (s, [], 0) := by
        simp only [vadStep]
        rw [if_neg (by rw [h1]; exact Bool.false_ne_true)]
      obtain ⟨he, hc⟩ := ih s h1 h2 h3
      rw [hx, hm, hstep]
      rw [resendCount_skip _ _ _ (by intro hh; cases hh)]
      exact ⟨by rw [he], by rw [List.nil_append, hc]⟩
    | capFire =>
      have hstep : vadStep s VadEv.capFire = (s, [], 0) := by
        simp only [vadStep]
        rw [if_neg (by rw [h2]; exact Bool.false_ne_true)]
      obtain ⟨he, hc⟩ := ih s h1 h2 h3
      rw [hx, hm, hstep]
      rw [resendCount_skip _ _ _ (by intro hh; cases hh)]
      exact ⟨by rw [he], by rw [List.nil_append, hc]⟩
    | resendFire =>
      cases hr : s.resendPending with
      | true =>
        have hstep : vadStep s VadEv.resendFire =
            ({ s with resendPending := false }, [OutMsg.elUserAudioEnd], 0) := by
          simp only [vadStep]
          rw [if_pos hr, if_pos h3]
        obtain ⟨he, hc⟩ := ih { s with resendPending := false } h1 h2 h3
        rw [hx, hm, hstep, resendCount_hit]
        refine ⟨by rw [he], ?_⟩
        rw [countAudioEnd_append, hc]
        show 1 + resendCount false rest = 1
        rw [resendCount_false]
      | false =>
        have hstep : vadStep s VadEv.resendFire = (s, [], 0) := by
          simp only [vadStep]
          rw [if_neg (by rw [hr]; exact Bool.false_ne_true)]
        obtain ⟨he, hc⟩ := ih s h1 h2 h3
        rw [hx, hm, hstep]
        refine ⟨by rw [he], ?_⟩
        rw [List.nil_append, hc, hr, resendCount_false, resendCount_false]
    | nudge250Fire =>
      cases hn : s.nudge250Pending with
      | true =>
        have hstep : vadStep s VadEv.nudge250Fire =
            ({ s with nudge250Pending := false },
              [OutMsg.elUserMessage "(User finished speaking - please respond)"],
              0) := by
          simp only [vadStep]
          rw [if_pos hn, if_pos h3]
        obtain ⟨he, hc⟩ := ih { s with nudge250Pending := false } h1 h2 h3
        rw [hx, hm, hstep]
        rw [resendCount_skip _ _ _ (by intro hh; cases hh)]
        refine ⟨by rw [he], ?_⟩
        rw [countAudioEnd_append, hc]
        show 0 + resendCount s.resendPending rest = resendCount s.resendPending rest
        rw [Nat.zero_add]
      | false =>
        have hstep : vadStep s VadEv.nudge250Fire = (s, [], 0) := by
          simp only [vadStep]
          rw [if_neg (by rw [hn]; exact Bool.false_ne_true)]
        obtain ⟨he, hc⟩ := ih s h1 h2 h3
        rw [hx, hm, hstep]
        rw [resendCount_skip _ _ _ (by intro hh; cases hh)]
        exact ⟨by rw [he], by rw [List.nil_append, hc]⟩

/-- C3 (amended): for every caller turn only one exit occurs — the hard-cap
callback firing while the silence timer is pending runs `endUserTurn` once
and cancels the silence timer, so every later turn-scoped timer event adds
no further exit — but each exit deliberately sends `user_audio_end` twice
while the EL socket stays open: once immediately and once more when the
scheduled 150 ms re-send fires; the duplicate is sent, not suppressed. -/
theorem turn_exit_once_but_two_ends (s : Bst) (evs : List VadEv)
    (hsil : s.silencePending = true) (hcap : s.capPending = true)
    (hopen : s.elOpen = true) (hres : s.resendPending = false) :
    (runVad s (VadEv.capFire :: evs)).exits = 1 ∧
      countAudioEnd (runVad s (VadEv.capFire :: evs)).msgs =
        1 + (if evs.contains VadEv.resendFire then 1 else 0) := by
  have hstep : vadStep s VadEv.capFire =
      ((endUserTurn { s with capPending := false }).1,
        (endUserTurn { s with capPending := false }).2, 1) := by
    simp only [vadStep]
    rw [if_pos hcap]
  have hopen2 : ({ s with capPending := false } : Bst).elOpen = true := hopen
  obtain ⟨hsp, hsl, hcp, hrp, hop, hcnt⟩ :=
    endUserTurn_state { s with capPending := false } hopen2
  obtain ⟨he, hc⟩ :=
    runVad_after_exit evs (endUserTurn { s with capPending := false }).1 hsl hcp hop
  rw [hrp, resendCount_true] at hc
  obtain ⟨hx, hm⟩ := runVad_cons s VadEv.capFire evs
  rw [hx, hm, hstep]
  exact ⟨by rw [he], by rw [countAudioEnd_append, hcnt, hc]⟩

theorem turn_exit_once_but_two_ends_witness :
    (runVad turnExSt [VadEv.capFire, VadEv.silenceFire, VadEv.resendFire,
        VadEv.nudge250Fire]).exits = 1 ∧
      countAudioEnd (runVad turnExSt [VadEv.capFire, VadEv.silenceFire,
        VadEv.resendFire, VadEv.nudge250Fire]).msgs =
        1 + (if [VadEv.silenceFire, VadEv.resendFire,
          VadEv.nudge250Fire].contains VadEv.resendFire then 1 else 0) :=
  turn_exit_once_but_two_ends turnExSt
    [VadEv.silenceFire, VadEv.resendFire, VadEv.nudge250Fire]
    rfl rfl rfl rfl

/-! ## C1: outbound frame sizes -/

theorem mediaPayloads_sendFrames_subset (fs : List (List Nat)) :
    ∀ s : Bst, ∀ p ∈ mediaPayloads (sendFrames s fs).2, p ∈ fs := by
  induction fs with
  | nil =>
    intro s p hp
    simp [sendFrames, mediaPayloads, mediaRecs] at hp
  | cons f rest ih =>
    intro s p hp
    simp only [sendFrames] at hp
    cases hsid : s.twilioStreamSid with
    | none =>
      simp only [sendAudioToTwilio, hsid] at hp
      simp only [mediaPayloads, mediaRecs, List.nil_append] at hp
      have : p ∈ mediaPayloads (sendFrames s rest).2 := hp
      exact List.mem_cons_of_mem f (ih s p this)
    | some sid =>
      simp only [sendAudioToTwilio, hsid] at hp
      simp only [List.cons_append, List.nil_append, mediaPayloads, mediaRecs,
        List.filterMap_cons, List.map_cons, List.mem_cons] at hp
      rcases hp with rfl | hp
      · exact List.mem_cons_self _ _
      · exact List.mem_cons_of_mem f (ih _ p hp)

theorem agentAudioState_elOutFormat (s : Bst) (now : Nat) :
    (agentAudioState s now).elOutFormat = s.elOutFormat := by
  unfold agentAudioState resetUtterance
  split
  · rfl
  · rfl

/-- The agent-audio handler only emits payloads cut by the 160-byte
slicer from the transcoded stream. -/
theorem mediaPayloads_onAgentAudio (s : Bst) (bytes : List Nat) (now : Nat)
    (p : List Nat) (hp : p ∈ mediaPayloads (onAgentAudio s bytes now).2) :
    p ∈ sliceFrames (transcodeAgent s.elOutFormat bytes) := by
  have hp2 : p ∈ mediaPayloads (sendFrames (agentAudioState s now)
      (sliceFrames (transcodeAgent (agentAudioState s now).elOutFormat bytes))).2 := hp
  rw [agentAudioState_elOutFormat] at hp2
  exact mediaPayloads_sendFrames_subset _ _ p hp2

/-- C1 counterexample: a 80-byte agent payload in `ulaw_8000` format (an
explicit input allowed by the claim, which quantifies over any byte
length) produces exactly one outbound media record, whose payload is 80
bytes, not 160. -/
theorem outbound_frame_not_160_cex :
    mediaPayloads (onAgentAudio exState (List.replicate 80 0) 1000).2 =
        [List.replicate 80 0] ∧
      (List.replicate 80 (0 : Nat)).length ≠ 160 := by decide

/-- C1 (amended): every outbound media record written by the agent-audio
path has a nonempty payload of at most 160 μ-law bytes, and of exactly 160
bytes whenever the transcoded μ-law stream length is a multiple of 160
(only the final slice of a non-multiple stream is shorter). -/
theorem outbound_frame_sizes (s : Bst) (bytes : List Nat) (now : Nat)
    (p : List Nat) (hp : p ∈ mediaPayloads (onAgentAudio s bytes now).2) :
    0 < p.length ∧ p.length ≤ 160 ∧
      (160 ∣ (transcodeAgent s.elOutFormat bytes).length → p.length = 160) :=
  sliceFrames_spec _ p (mediaPayloads_onAgentAudio s bytes now p hp)

set_option maxRecDepth 4096 in
theorem outbound_frame_sizes_witness :
    0 < (List.replicate 160 (0 : Nat)).length ∧
      (List.replicate 160 (0 : Nat)).length ≤ 160 ∧
      (160 ∣ (transcodeAgent exState.elOutFormat (List.replicate 160 0)).length →
        (List.replicate 160 (0 : Nat)).length = 160) :=
  outbound_frame_sizes exState (List.replicate 160 0) 1000
    (List.replicate 160 0) (by decide)

/-! ## C2: monotone outbound sequencing -/

/-- The claimed relation between consecutive outbound media records:
`seq` and `chunk` advance by 1 and the timestamp by 20 ms. -/
def consecFrame (a b : Nat × Nat × Nat × List Nat) : Prop :=
  b.1 = a.1 + 1 ∧ b.2.1 = a.2.1 + 1 ∧ b.2.2.1 = a.2.2.1 + 20

/-- The media records produced from counters `q`, `c`, `t`: each frame
pre-increments `seq` and `chunk`, stamps the current timestamp, and
advances it by 20. -/
def stampFrom (q c t : Nat) : List (List Nat) → List (Nat × Nat × Nat × List Nat)
  | [] => []
  | p :: ps => (q + 1, c + 1, t, p) :: stampFrom (q + 1) (c + 1) (t + 20) ps

theorem stampFrom_append (ps qs : List (List Nat)) :
    ∀ q c t, stampFrom q c t (ps ++ qs) =
      stampFrom q c t ps ++
        stampFrom (q + ps.length) (c + ps.length) (t + 20 * ps.length) qs := by
  induction ps with
  | nil => intro q c t; simp [stampFrom]
  | cons p rest ih =>
    intro q c t
    have h1 : q + 1 + rest.length = q + (rest.length + 1) := by omega
    have h2 : c + 1 + rest.length = c + (rest.length + 1) := by omega
    have h3 : t + 20 + 20 * rest.length = t + 20 * (rest.length + 1) := by ring
    show (q + 1, c + 1, t, p) :: stampFrom (q + 1) (c + 1) (t + 20) (rest ++ qs) =
      (q + 1, c + 1, t, p) ::
        (stampFrom (q + 1) (c + 1) (t + 20) rest ++
          stampFrom (q + (rest.length + 1)) (c + (rest.length + 1))
            (t + 20 * (rest.length + 1)) qs)
    rw [ih (q + 1) (c + 1) (t + 20), h1, h2, h3]

theorem stampFrom_chain (ps : List (List Nat)) :
    ∀ q c t, List.Chain' consecFrame (stampFrom q c t ps) := by
  induction ps with
  | nil => intro q c t; exact List.chain'_nil
  | cons p rest ih =>
    intro q c t
    cases rest with
    | nil => simp [stampFrom]
    | cons p2 r2 =>
      rw [stampFrom, stampFrom]
      exact List.chain'_cons.mpr ⟨⟨rfl, rfl, rfl⟩,
        by rw [← stampFrom]; exact ih (q + 1) (c + 1) (t + 20)⟩

theorem sendFrames_none (fs : List (List Nat)) :
    ∀ s : Bst, s.twilioStreamSid = none → sendFrames s fs = (s, []) := by
  induction fs with
  | nil => intro s _; rfl
  | cons f rest ih =>
    intro s hs
    simp only [sendFrames, sendAudioToTwilio, hs]
    rw [ih s hs]
    rfl

theorem mediaRecs_append (a b : List OutMsg) :
    mediaRecs (a ++ b) = mediaRecs a ++ mediaRecs b := by
  simp [mediaRecs, List.filterMap_append]

theorem sendFrames_some (fs : List (List Nat)) :
    ∀ s : Bst, ∀ sid : String, s.twilioStreamSid = some sid →
      mediaRecs (sendFrames s fs).2 = stampFrom s.seq s.chunk s.tsMs fs ∧
        (sendFrames s fs).1.twilioStreamSid = some sid ∧
        (sendFrames s fs).1.seq = s.seq + fs.length ∧
        (sendFrames s fs).1.chunk = s.chunk + fs.length ∧
        (sendFrames s fs).1.tsMs = s.tsMs + 20 * fs.length ∧
        (sendFrames s fs).1.elOutFormat = s.elOutFormat := by
  induction fs with
  | nil =>
    intro s sid hs
    refine ⟨rfl, hs, rfl, rfl, ?_, rfl⟩
    show s.tsMs = s.tsMs + 20 * 0
    simp
  | cons f rest ih =>
    intro s sid hs
    simp only [sendFrames, sendAudioToTwilio, hs]
    have hs2 : (advCounters s).twilioStreamSid = some sid := hs
    obtain ⟨hrec, hsid2, hseq, hchunk, hts, hfmt⟩ := ih (advCounters s) sid hs2
    refine ⟨?_, hsid2, ?_, ?_, ?_, hfmt⟩
    · rw [mediaRecs_append, hrec]
      rfl
    · rw [hseq]
      show s.seq + 1 + rest.length = s.seq + (f :: rest).length
      rw [List.length_cons]
      omega
    · rw [hchunk]
      show s.chunk + 1 + rest.length = s.chunk + (f :: rest).length
      rw [List.length_cons]
      omega
    · rw [hts]
      show s.tsMs + 20 + 20 * rest.length = s.tsMs + 20 * (f :: rest).length
      rw [List.length_cons]
      ring


/-- The concatenated 160-byte frame streams of a sequence of agent audio
deliveries, in a fixed output format. -/
def agentStreams (fmt : Option String) : List (List Nat × Nat) → List (List Nat)
  | [] => []
  | (b, _) :: rest => sliceFrames (transcodeAgent fmt b) ++ agentStreams fmt rest

theorem agentAudioState_counters (s : Bst) (now : Nat) :
    (agentAudioState s now).twilioStreamSid = s.twilioStreamSid ∧
      (agentAudioState s now).seq = s.seq ∧
      (agentAudioState s now).chunk = s.chunk ∧
      (agentAudioState s now).tsMs = s.tsMs := by
  unfold agentAudioState resetUtterance
  split
  · exact ⟨rfl, rfl, rfl, rfl⟩
  · exact ⟨rfl, rfl, rfl, rfl⟩

theorem runAgentAudio_some (evs : List (List Nat × Nat)) :
    ∀ s : Bst, ∀ sid : String, s.twilioStreamSid = some sid →
      mediaRecs (runAgentAudio s evs).2 =
          stampFrom s.seq s.chunk s.tsMs (agentStreams s.elOutFormat evs) ∧
        (runAgentAudio s evs).1.twilioStreamSid = some sid ∧
        (runAgentAudio s evs).1.elOutFormat = s.elOutFormat := by
  induction evs with
  | nil => intro s sid hs; exact ⟨rfl, hs, rfl⟩
  | cons ev rest ih =>
    intro s sid hs
    obtain ⟨b, now⟩ := ev
    obtain ⟨hsid1, hseq1, hchunk1, hts1⟩ := agentAudioState_counters s now
    have hsid1' : (agentAudioState s now).twilioStreamSid = some sid := by
      rw [hsid1]; exact hs
    obtain ⟨hrec1, hsid2, hseq2, hchunk2, hts2, hfmt2⟩ :=
      sendFrames_some (sliceFrames (transcodeAgent
        (agentAudioState s now).elOutFormat b)) (agentAudioState s now) sid hsid1'
    obtain ⟨hrec2, hsid3, hfmt3⟩ :=
      ih (sendFrames (agentAudioState s now) (sliceFrames (transcodeAgent
        (agentAudioState s now).elOutFormat b))).1 sid hsid2
    have hrun : runAgentAudio s ((b, now) :: rest) =
        ((runAgentAudio (onAgentAudio s b now).1 rest).1,
          (onAgentAudio s b now).2 ++
            (runAgentAudio (onAgentAudio s b now).1 rest).2) := rfl
    have honA : onAgentAudio s b now =
        sendFrames (agentAudioState s now) (sliceFrames (transcodeAgent
          (agentAudioState s now).elOutFormat b)) := rfl
    rw [hrun, honA]
    refine ⟨?_, hsid3, ?_⟩
    · show mediaRecs ((sendFrames (agentAudioState s now)
          (sliceFrames (transcodeAgent (agentAudioState s now).elOutFormat b))).2 ++
          (runAgentAudio (sendFrames (agentAudioState s now)
            (sliceFrames (transcodeAgent
              (agentAudioState s now).elOutFormat b))).1 rest).2) =
        stampFrom s.seq s.chunk s.tsMs (agentStreams s.elOutFormat ((b, now) :: rest))
      rw [mediaRecs_append, hrec1, hrec2]
      rw [hseq2, hchunk2, hts2, hfmt2, hseq1, hchunk1, hts1,
        agentAudioState_elOutFormat]
      rw [show agentStreams s.elOutFormat ((b, now) :: rest) =
        sliceFrames (transcodeAgent s.elOutFormat b) ++
          agentStreams s.elOutFormat rest from rfl]
      rw [stampFrom_append]
    · show (runAgentAudio (sendFrames (agentAudioState s now)
          (sliceFrames (transcodeAgent
            (agentAudioState s now).elOutFormat b))).1 rest).1.elOutFormat =
        s.elOutFormat
      rw [hfmt3, hfmt2, agentAudioState_elOutFormat]

theorem runAgentAudio_none (evs : List (List Nat × Nat)) :
    ∀ s : Bst, s.twilioStreamSid = none →
      (runAgentAudio s evs).2 = [] ∧
        (runAgentAudio s evs).1.twilioStreamSid = none := by
  induction evs with
  | nil => intro s hs; exact ⟨rfl, hs⟩
  | cons ev rest ih =>
    intro s hs
    obtain ⟨b, now⟩ := ev
    obtain ⟨hsid1, _, _, _⟩ := agentAudioState_counters s now
    have hsid1' : (agentAudioState s now).twilioStreamSid = none := by
      rw [hsid1]; exact hs
    have hsend : sendFrames (agentAudioState s now) (sliceFrames (transcodeAgent
        (agentAudioState s now).elOutFormat b)) = (agentAudioState s now, []) :=
      sendFrames_none _ _ hsid1'
    have honA : onAgentAudio s b now =
        sendFrames (agentAudioState s now) (sliceFrames (transcodeAgent
          (agentAudioState s now).elOutFormat b)) := rfl
    have hrun : runAgentAudio s ((b, now) :: rest) =
        ((runAgentAudio (onAgentAudio s b now).1 rest).1,
          (onAgentAudio s b now).2 ++
            (runAgentAudio (onAgentAudio s b now).1 rest).2) := rfl
    rw [hrun, honA, hsend]
    obtain ⟨hr2, hr1⟩ := ih (agentAudioState s now) hsid1'
    rw [hr2]
    exact ⟨rfl, hr1⟩

/-- C2: within a single Call, the outbound sequencing fields of the media
records written to the telephony socket are strictly increasing and never
rewind: every pair of consecutive outbound frames satisfies
`seq + 1`, `chunk + 1`, `tsMs + 20`, for any starting state and any
sequence of agent audio deliveries. -/
theorem outbound_sequencing_consecutive (s : Bst) (evs : List (List Nat × Nat)) :
    List.Chain' consecFrame (mediaRecs (runAgentAudio s evs).2) := by
  cases hsid : s.twilioStreamSid with
  | none =>
    rw [(runAgentAudio_none evs s hsid).1]
    exact List.chain'_nil
  | some sid =>
    rw [(runAgentAudio_some evs s sid hsid).1]
    exact stampFrom_chain _ _ _ _

/-! ## C9: the audio-payload extractor -/

/-- A candidate audio field passing the `length > 32` test. -/
def isLongCand : Option String → Bool
  | some s => decide (32 < s.length)
  | none => false

/-- A value that is a base64-looking string longer than 128 characters. -/
def isDeepStr : JVal → Bool
  | JVal.str s => decide (128 < s.length) && isB64Str s
  | _ => false

/-- A value of the message that makes the last-resort scan return: either
itself a long base64 string, or an object or array holding one among its
values. -/
def hasDeepB64 : JVal → Bool
  | JVal.str s => decide (128 < s.length) && isB64Str s
  | JVal.obj fs => (fs.map fun p => p.2).any isDeepStr
  | JVal.arr xs => xs.any isDeepStr
  | JVal.other => false

theorem firstLongCand_isNone (cs : List (Option String)) :
    (firstLongCand cs).isNone = (cs.all fun c => !isLongCand c) := by
  induction cs with
  | nil => rfl
  | cons c rest ih =>
    cases c with
    | none => simp [firstLongCand, isLongCand, ih]
    | some s =>
      by_cases h : 32 < s.length
      · simp [firstLongCand, isLongCand, h]
      · simp [firstLongCand, isLongCand, h, ih]

theorem scanInner_isNone (vs : List JVal) :
    (scanInner vs).isNone = (vs.all fun v => !isDeepStr v) := by
  induction vs with
  | nil => rfl
  | cons v rest ih =>
    cases v with
    | str s =>
      cases hB : (decide (128 < s.length) && isB64Str s) with
      | true => simp [scanInner, isDeepStr, hB]
      | false => simp [scanInner, isDeepStr, hB, ih]
    | obj fs => simp [scanInner, isDeepStr, ih]
    | arr xs => simp [scanInner, isDeepStr, ih]
    | other => simp [scanInner, isDeepStr, ih]

theorem not_all_not_any (p : JVal → Bool) :
    ∀ l : List JVal, (l.all fun v => !p v) = !(l.any p) := by
  intro l
  induction l with
  | nil => rfl
  | cons a t ih => simp [List.all_cons, List.any_cons, Bool.not_or, ih]

theorem scanVals_isNone (vs : List JVal) :
    (scanVals vs).isNone = (vs.all fun v => !hasDeepB64 v) := by
  induction vs with
  | nil => rfl
  | cons v rest ih =>
    cases v with
    | str s =>
      cases hB : (decide (128 < s.length) && isB64Str s) with
      | true => simp [scanVals, hasDeepB64, hB]
      | false => simp [scanVals, hasDeepB64, hB, ih]
    | obj fs =>
      cases hin : scanInner (fs.map fun p => p.2) with
      | some sv =>
        have h1 : ((fs.map fun p => p.2).all fun v => !isDeepStr v) = false := by
          rw [← scanInner_isNone, hin]
          rfl
        have h2 : ((fs.map fun p => p.2).any isDeepStr) = true := by
          rw [not_all_not_any] at h1
          cases hA : ((fs.map fun p => p.2).any isDeepStr) with
          | true => rfl
          | false =>
            rw [hA] at h1
            simp at h1
        simp [scanVals, hin, hasDeepB64, h2]
      | none =>
        have h1 : ((fs.map fun p => p.2).all fun v => !isDeepStr v) = true := by
          rw [← scanInner_isNone, hin]
          rfl
        have h2 : ((fs.map fun p => p.2).any isDeepStr) = false := by
          rw [not_all_not_any] at h1
          cases hA : ((fs.map fun p => p.2).any isDeepStr) with
          | true =>
            rw [hA] at h1
            simp at h1
          | false => rfl
        simp [scanVals, hin, hasDeepB64, h2, ih]
    | arr xs =>
      cases hin : scanInner xs with
      | some sv =>
        have h1 : (xs.all fun v => !isDeepStr v) = false := by
          rw [← scanInner_isNone, hin]
          rfl
        have h2 : (xs.any isDeepStr) = true := by
          rw [not_all_not_any] at h1
          cases hA : (xs.any isDeepStr) with
          | true => rfl
          | false =>
            rw [hA] at h1
            simp at h1
        simp [scanVals, hin, hasDeepB64, h2]
      | none =>
        have h1 : (xs.all fun v => !isDeepStr v) = true := by
          rw [← scanInner_isNone, hin]
          rfl
        have h2 : (xs.any isDeepStr) = false := by
          rw [not_all_not_any] at h1
          cases hA : (xs.any isDeepStr) with
          | true =>
            rw [hA] at h1
            simp at h1
          | false => rfl
        simp [scanVals, hin, hasDeepB64, h2, ih]
    | other => simp [scanVals, hasDeepB64, ih]

/-- C9 (amended): the extractor returns null exactly when no known audio
field holds a string longer than 32 characters AND no top-level or
one-level-deep value of the message is a base64-looking string longer than
128 characters.  In particular it returns a payload only under one of
those two conditions; a message whose audio string is 32 characters or
shorter yields null provided the message carries no other such long base64
value (the last-resort scan otherwise still returns that value). -/
theorem pickElAudioB64_none_iff (m : JVal) :
    pickElAudioB64 m = none ↔
      ((audioCands m).all fun c => !isLongCand c) = true ∧
        ((jvalues m).all fun v => !hasDeepB64 v) = true := by
  have hpick : (pickElAudioB64 m).isNone =
      (((audioCands m).all fun c => !isLongCand c) &&
        ((jvalues m).all fun v => !hasDeepB64 v)) := by
    unfold pickElAudioB64
    cases hf : firstLongCand (audioCands m) with
    | some s =>
      have h1 : ((audioCands m).all fun c => !isLongCand c) = false := by
        rw [← firstLongCand_isNone, hf]
        rfl
      simp [h1]
    | none =>
      have h1 : ((audioCands m).all fun c => !isLongCand c) = true := by
        rw [← firstLongCand_isNone, hf]
        rfl
      simp [h1, scanVals_isNone]
  constructor
  · intro h
    have h2 : (pickElAudioB64 m).isNone = true := by
      rw [h]
      rfl
    rw [hpick, Bool.and_eq_true] at h2
    exact h2
  · intro h
    have h2 : (pickElAudioB64 m).isNone = true := by
      rw [hpick, h.1, h.2]
      rfl
    exact Option.isNone_iff_eq_none.mp h2

def longAStr : String := String.mk (List.replicate 129 'A')

set_option maxRecDepth 8192 in
/-- C9 counterexample: a message whose `audio` field is the 5-character
string "short" (32 characters or fewer) but which carries another
129-character base64-looking value is not mapped to null: the last-resort
scan returns the long value, so the message does produce outbound audio. -/
theorem pick_short_audio_not_null :
    strField (JVal.obj [("audio", JVal.str "short"), ("raw", JVal.str longAStr)])
        "audio" = some "short" ∧
      ("short" : String).length ≤ 32 ∧
      pickElAudioB64
          (JVal.obj [("audio", JVal.str "short"), ("raw", JVal.str longAStr)]) =
        some longAStr := by
  refine ⟨rfl, by decide, ?_⟩
  rfl

end Bridge
